import Mathlib

/-!
Verification development for the AllDone ResumeAgent core
(ResumeLoader.py, JobDecriptionAnalyzer.py, RewriteResume.py),
shallowly embedded in Lean 4.  Python strings are modeled as Lean
strings, Python dynamic values as an inductive type, and fallible
calls (LLM queries, json.loads) as explicitly passed functions
returning Except.
-/

namespace AllDone

/-! Section: Python string primitives -/

/-- Characters treated as whitespace by the Python str.strip() method
(restricted to the ASCII whitespace characters). -/
def pyIsSpace (c : Char) : Bool :=
  c = ' ' || c = '\t' || c = '\n' || c = '\x0d' || c = '\x0b' || c = '\x0c'

/-- Strip characters satisfying p from both ends of a character list,
as Python str.strip(chars) does. -/
def stripBoth (p : Char → Bool) (cs : List Char) : List Char :=
  (cs.dropWhile p).rdropWhile p

/-- Python str.strip() with no argument: strip whitespace from both ends. -/
def pyStrip (s : String) : String :=
  String.mk (stripBoth pyIsSpace s.data)

/-- Membership in the bullet-glyph strip set of ResumeLoader.normalize_sections,
which calls line.strip with the four characters bullet, dash, space, star. -/
def isBulletGlyph (c : Char) : Bool :=
  c = '•' || c = '-' || c = ' ' || c = '*'

/-- Python line.strip with the bullet-glyph character set. -/
def stripGlyphs (s : String) : String :=
  String.mk (stripBoth isBulletGlyph s.data)

/-- Python str.lower(), restricted to ASCII case mapping. -/
def pyLower (s : String) : String :=
  String.mk (s.data.map Char.toLower)

/-- Helper for pySplitlines: split a character list at line boundaries,
recognising LF, CRLF and CR, with the Python convention that a trailing
terminator does not open a new empty line. -/
def splitlinesAux : List Char → List Char → List String
  | [], acc => if acc.isEmpty then [] else [String.mk acc.reverse]
  | '\x0d' :: '\n' :: rest, acc => String.mk acc.reverse :: splitlinesAux rest []
  | '\n' :: rest, acc => String.mk acc.reverse :: splitlinesAux rest []
  | '\x0d' :: rest, acc => String.mk acc.reverse :: splitlinesAux rest []
  | c :: rest, acc => splitlinesAux rest (c :: acc)

/-- Python str.splitlines() for the common line boundaries LF, CRLF, CR. -/
def pySplitlines (s : String) : List String :=
  splitlinesAux s.data []

/-- Prefix test on character lists. -/
def charsPrefixOf : List Char → List Char → Bool
  | [], _ => true
  | _ :: _, [] => false
  | a :: as, b :: bs => a = b && charsPrefixOf as bs

/-- Infix (substring) test on character lists. -/
def charsInfixOf : List Char → List Char → Bool
  | pat, [] => pat.isEmpty
  | pat, b :: rest => charsPrefixOf pat (b :: rest) || charsInfixOf pat rest

/-- Python substring containment test, pat in s. -/
def pyContains (s pat : String) : Bool :=
  charsInfixOf pat.data s.data

/-! Section: ResumeLoader.py: split_into_sections and normalize_sections -/

/-- The five resume section names fixed by split_into_sections. -/
inductive SectionName
  | summary
  | skills
  | experience
  | projects
  | education
deriving DecidableEq, Repr

open SectionName

/-- The section_patterns dictionary of split_into_sections, in its
source insertion order (Python dicts iterate in insertion order). -/
def sectionPatterns : List (SectionName × List String) :=
  [(summary, ["summary", "professional summary", "objective", "profile", "about"]),
   (skills, ["skills", "technical skills", "core competencies", "competencies", "expertise"]),
   (experience, ["experience", "work experience", "employment", "work history", "professional experience"]),
   (projects, ["projects", "project experience", "key projects", "notable projects"]),
   (education, ["education", "academic background", "qualifications", "academic qualifications"])]

/-- The cleaned lowercased form of a line, line.strip().lower() in the source. -/
def lineClean (line : String) : String :=
  pyLower (pyStrip line)

/-- True when some keyword of the given pattern list occurs in the cleaned
lowercased line. -/
def matchesPatterns (pats : List String) (line : String) : Bool :=
  pats.any (fun pat => pyContains (lineClean line) pat)

/-- The header-detection loop of split_into_sections: walk the pattern
lists in order; on a keyword match, accept the section when the stripped
line is shorter than 50 characters (breaking out of the loop), otherwise
keep scanning the remaining pattern lists. -/
def findSection : List (SectionName × List String) → String → Option SectionName
  | [], _ => none
  | (name, pats) :: rest, line =>
    if matchesPatterns pats line then
      if (pyStrip line).length < 50 then some name
      else findSection rest line
    else findSection rest line

/-- Header classification of a single line, using the fixed pattern table. -/
def classifyLine (line : String) : Option SectionName :=
  findSection sectionPatterns line

/-- One step of the line loop of split_into_sections: on a header line,
switch the current section and drop the line; otherwise append the line
plus a newline to the buffer of the current section, if any. -/
def sectionStep (st : Option SectionName × (SectionName → String)) (line : String) :
    Option SectionName × (SectionName → String) :=
  match classifyLine line with
  | some sec => (some sec, st.2)
  | none =>
    match st.1 with
    | some cur => (st.1, fun s => if s = cur then st.2 s ++ line ++ "\n" else st.2 s)
    | none => st

/-- ResumeLoader.split_into_sections: fold the line loop over the
splitlines of the raw text, starting with no current section and all
five buffers empty. -/
def splitIntoSections (resumeText : String) : SectionName → String :=
  ((pySplitlines resumeText).foldl sectionStep (none, fun _ => "")).2

/-- The per-line cleaning of normalize_sections: line.strip with the
bullet-glyph set, then a plain whitespace strip. -/
def cleanLine (line : String) : String :=
  pyStrip (stripGlyphs line)

/-- ResumeLoader.normalize_sections applied to one section value: split on
line boundaries, clean each line, keep the nonempty results in order. -/
def normalizeSectionText (value : String) : List String :=
  ((pySplitlines value).map cleanLine).filter (fun l => l ≠ "")

/-- The same per-line normalization applied to an already split list of
lines, used to state idempotence of the cleaning pass. -/
def normalizeLines (lines : List String) : List String :=
  (lines.map cleanLine).filter (fun l => l ≠ "")

/-- The SectionSegmenter contract of the spec: split_into_sections followed
by normalize_sections, giving each section an ordered list of cleaned items. -/
def segment (resumeText : String) (s : SectionName) : List String :=
  normalizeSectionText (splitIntoSections resumeText s)

/-! Section: Python dynamic values and dictionaries -/

/-- Dynamic Python values as they flow through JobDecriptionAnalyzer.py and
RewriteResume.py: None, strings, lists and string-keyed dictionaries. -/
inductive PyVal where
  | none
  | str (s : String)
  | list (xs : List PyVal)
  | dict (kvs : List (String × PyVal))

/-- A Python dictionary with string keys, in insertion order. -/
abbrev PyDict := List (String × PyVal)

/-- Python truthiness for the modeled values. -/
def pyTruthy : PyVal → Bool
  | .none => false
  | .str s => s ≠ ""
  | .list xs => !xs.isEmpty
  | .dict kvs => !kvs.isEmpty

/-- Lookup of a key in a dictionary, d.get(k) without a default. -/
def dictGet (d : PyDict) (k : String) : Option PyVal :=
  (d.find? (fun kv => kv.1 = k)).map Prod.snd

/-- Lookup with a default value, d.get(k, dflt). -/
def dictGetD (d : PyDict) (k : String) (dflt : PyVal) : PyVal :=
  (dictGet d k).getD dflt

/-- Key membership test, k in d. -/
def dictHasKey (d : PyDict) (k : String) : Bool :=
  (dictGet d k).isSome

/-- Assignment d[k] = v: replace the value in place when the key exists
(Python dicts keep the original key position), append otherwise. -/
def dictSet (d : PyDict) (k : String) (v : PyVal) : PyDict :=
  if dictHasKey d k then d.map (fun kv => if kv.1 = k then (k, v) else kv)
  else d ++ [(k, v)]

mutual
/-- Python repr of a modeled value (string escaping inside quotes is not
modeled; only the overall shape matters to the claims). -/
def pyReprOf : PyVal → String
  | .none => "None"
  | .str s => "\x27" ++ s ++ "\x27"
  | .list xs => "[" ++ pyReprList xs ++ "]"
  | .dict kvs => "\x7b" ++ pyReprDict kvs ++ "\x7d"

/-- Comma-joined reprs of the elements of a list value. -/
def pyReprList : List PyVal → String
  | [] => ""
  | [x] => pyReprOf x
  | x :: rest => pyReprOf x ++ ", " ++ pyReprList rest

/-- Comma-joined key: value reprs of the entries of a dict value. -/
def pyReprDict : List (String × PyVal) → String
  | [] => ""
  | [(k, v)] => "\x27" ++ k ++ "\x27: " ++ pyReprOf v
  | (k, v) :: rest => "\x27" ++ k ++ "\x27: " ++ pyReprOf v ++ ", " ++ pyReprDict rest
end

/-- Python str() of a modeled value: the string itself for strings, the
repr for everything else. -/
def pyStrOf : PyVal → String
  | .str s => s
  | v => pyReprOf v

/-! Section: JobDecriptionAnalyzer.py: analysis and parsing -/

/-- The analysis prompt built by _analyze_single_description around the
job description text. -/
def analysisPrompt (descriptionText : String) : String :=
  "\nExtract structured information from this job description.\nReturn ONLY valid JSON with these fields:\n\n- required_skills: list of required technical skills\n- preferred_skills: list of preferred/nice-to-have skills\n- tools: list of tools/technologies mentioned\n- seniority_level: string (e.g., \"entry\", \"mid\", \"senior\", \"lead\")\n- responsibilities: list of key responsibilities\n- keywords: list of important keywords from the job description\n\nJob Description:\n\"\"\"\n" ++ descriptionText ++ "\n\"\"\"\n\nReturn ONLY the JSON object, no additional text.\n"

/-- The greedy DOTALL brace-span search of _analyze_single_description:
the span from the first opening brace to the last closing brace after it,
when such a pair exists. -/
def extractBraceSpan (s : String) : Option String :=
  let afterFirst := s.data.dropWhile (fun c => c ≠ '\x7b')
  let upToLast := afterFirst.rdropWhile (fun c => c ≠ '\x7d')
  if upToLast.isEmpty then Option.none else some (String.mk upToLast)

/-- JobDescriptionAnalyzer._analyze_single_description: blank descriptions
yield no analysis; a dict response is returned as-is; a string response is
parsed from its brace span when one exists, else parsed whole; anything
else, and every query or parse failure, yields no analysis.  The LLM query
and json.loads are passed in as fallible functions. -/
def analyzeSingle (query : String → Except Unit PyVal)
    (jsonLoads : String → Except Unit PyVal) (descriptionText : String) :
    Option PyVal :=
  if descriptionText = "" || pyStrip descriptionText = "" then Option.none
  else
    match query (analysisPrompt descriptionText) with
    | .error _ => Option.none
    | .ok (.dict kvs) => some (.dict kvs)
    | .ok (.str s) =>
      match extractBraceSpan s with
      | some sub =>
        match jsonLoads sub with
        | .ok v => some v
        | .error _ => Option.none
      | Option.none =>
        match jsonLoads s with
        | .ok v => some v
        | .error _ => Option.none
    | .ok _ => Option.none

/-- JobDescriptionAnalyzer.extract_job_descriptions applied to one job:
keep title, company, description and the job url, defaulting to None. -/
def extractJobMeta (job : PyDict) : PyDict :=
  [("title", dictGetD job "title" .none),
   ("company", dictGetD job "company" .none),
   ("description", dictGetD job "description" .none),
   ("url", dictGetD job "job_url" .none)]

/-- One entry of the analyze_jobs output, the job_meta / analysis pair. -/
structure AnalyzedJob where
  job_meta : PyDict
  analysis : Option PyVal

/-- Analysis of one description value inside the analyze_jobs try block: a
non-string truthy description raises inside _analyze_single_description and
is caught, yielding no analysis. -/
def analyzeValue (query jsonLoads : String → Except Unit PyVal)
    (description : PyVal) : Option PyVal :=
  match description with
  | .str s => analyzeSingle query jsonLoads s
  | _ => Option.none

/-- JobDescriptionAnalyzer.analyze_jobs: with no LLM client the result is
the empty list; otherwise each job is reduced to its metadata and analyzed
independently, with a falsy description short-circuiting to a None
analysis. -/
def analyzeJobs (llm : Option (String → Except Unit PyVal))
    (jsonLoads : String → Except Unit PyVal) (jobs : List PyDict) :
    List AnalyzedJob :=
  match llm with
  | Option.none => []
  | some query =>
    (jobs.map extractJobMeta).map (fun job =>
      let description := dictGetD job "description" .none
      if pyTruthy description then
        { job_meta := job, analysis := analyzeValue query jsonLoads description }
      else
        { job_meta := job, analysis := Option.none })

/-! Section: Job analysis records and skill matching -/

/-- The six-field JobAnalysis record of the spec data model. -/
structure JobAnalysis where
  required_skills : List String := []
  preferred_skills : List String := []
  tools : List String := []
  seniority_level : String := ""
  responsibilities : List String := []
  keywords : List String := []
deriving DecidableEq, Repr

/-- String elements of a list value; every consumer of the analysis dict
iterates string skills, so non-string elements are dropped here. -/
def pyStrElems : PyVal → List String
  | .list xs => xs.filterMap (fun v => match v with | .str s => some s | _ => Option.none)
  | _ => []

/-- View of a parsed analysis dictionary as a JobAnalysis record, following
the consumers of the dict, which read each field with get(key, default)
and the defaults empty list / empty string. -/
def jobAnalysisOfDict (d : PyDict) : JobAnalysis :=
  { required_skills := pyStrElems (dictGetD d "required_skills" (.list [])),
    preferred_skills := pyStrElems (dictGetD d "preferred_skills" (.list [])),
    tools := pyStrElems (dictGetD d "tools" (.list [])),
    seniority_level :=
      match dictGetD d "seniority_level" (.str "") with
      | .str s => s
      | v => pyStrOf v,
    responsibilities := pyStrElems (dictGetD d "responsibilities" (.list [])),
    keywords := pyStrElems (dictGetD d "keywords" (.list [])) }

/-- Normalization of one skill, skill.lower().strip() in the source. -/
def normSkill (s : String) : String := pyStrip (pyLower s)

/-- Normalized skill set of a list of skills: drop falsy entries, then
lowercase and strip each, collected as a set. -/
def normSkillSet (xs : List String) : Finset String :=
  ((xs.filter (fun s => s ≠ "")).map normSkill).toFinset

/-- A category value of a skills mapping: a sequence, or a scalar that
match_resume_to_job wraps into a one-element sequence. -/
inductive CatValue
  | scalar (s : String)
  | seq (xs : List String)
deriving DecidableEq, Repr

/-- The skills entry of a resume record: a flat sequence, a category
mapping, or some other shape that the matcher ignores. -/
inductive SkillsData
  | flat (xs : List String)
  | categorized (cats : List (String × CatValue))
  | other
deriving DecidableEq, Repr

/-- The sequence a category value contributes when flattened. -/
def catElems : CatValue → List String
  | .scalar s => [s]
  | .seq xs => xs

/-- The resume skill set built by match_resume_to_job: flat lists are
normalized directly, category mappings are flattened first and any other
shape yields the empty set. -/
def resumeSkillsSet : SkillsData → Finset String
  | .flat xs => normSkillSet xs
  | .categorized cats => normSkillSet ((cats.map Prod.snd).flatMap catElems)
  | .other => ∅

/-- The match report returned by match_resume_to_job; the set-valued fields
render as lists whose order is not significant, so they are modeled as
finite sets, while safe_to_add is the literal list the code builds. -/
structure MatchReport where
  matched_required_skills : Finset String
  missing_required_skills : Finset String
  matched_preferred_skills : Finset String
  emphasize_skills : Finset String
  resume_gaps : Finset String
  safe_to_add : List String
deriving DecidableEq

/-- JobDescriptionAnalyzer.match_resume_to_job: None analysis gives no
report; otherwise both sides are normalized and compared with set algebra,
and safe_to_add is the empty list. -/
def matchResumeToJob (skillsData : SkillsData) (jobAnalysis : Option JobAnalysis) :
    Option MatchReport :=
  match jobAnalysis with
  | Option.none => Option.none
  | some ja =>
    let resume_skills := resumeSkillsSet skillsData
    let required_skills := normSkillSet ja.required_skills
    let preferred_skills := normSkillSet ja.preferred_skills
    let matched_required := resume_skills ∩ required_skills
    let missing_required := required_skills \ resume_skills
    let matched_preferred := resume_skills ∩ preferred_skills
    some { matched_required_skills := matched_required,
           missing_required_skills := missing_required,
           matched_preferred_skills := matched_preferred,
           emphasize_skills := matched_required ∪ matched_preferred,
           resume_gaps := missing_required,
           safe_to_add := [] }

/-! Section: RewriteResume.py: prompts and the rewrite pass -/

/-- Python sep.join(xs): succeeds with the interleaved concatenation when
every element is a string, raises TypeError otherwise. -/
def pyJoin (sep : String) (xs : List PyVal) : Except Unit String :=
  if xs.all (fun v => match v with | .str _ => true | _ => false) then
    .ok (String.intercalate sep (xs.map pyStrOf))
  else .error ()

/-- The keywords-joining idiom of the prompt builders: join a list value
with the separator, or fall back to str() for a non-list value. -/
def joinOrStr (sep : String) (v : PyVal) : Except Unit String :=
  match v with
  | .list xs => pyJoin sep xs
  | v => .ok (pyStrOf v)

/-- RewriteResume.summary_prompt: embeds the original summary, the joined
job keywords and the joined required skills; joining can raise for
non-string elements. -/
def summaryPromptE (summaryText : String) (jobAnalysis : PyDict) : Except Unit String := do
  let keywordsStr ← joinOrStr ", " (dictGetD jobAnalysis "keywords" (.list []))
  let skillsStr ← joinOrStr ", " (dictGetD jobAnalysis "required_skills" (.list []))
  .ok ("\nRewrite this resume summary to better match the job.\nDO NOT fabricate experience. Only emphasize relevant existing experience.\n\nOriginal summary:\n"
    ++ summaryText ++ "\n\nJob keywords:\n" ++ keywordsStr
    ++ "\n\nRequired skills:\n" ++ skillsStr
    ++ "\n\nReturn only the rewritten summary, no additional text.\n")

/-- RewriteResume.bullet_prompt: embeds one original bullet and the joined
job keywords; joining can raise for non-string elements. -/
def bulletPromptE (bullet : String) (jobAnalysis : PyDict) : Except Unit String := do
  let keywordsStr ← joinOrStr ", " (dictGetD jobAnalysis "keywords" (.list []))
  .ok ("\nRewrite this resume bullet to better align with the job.\nPreserve truth. Do not exaggerate. Only rephrase to emphasize relevance.\n\nBullet:\n"
    ++ bullet ++ "\n\nJob keywords:\n" ++ keywordsStr
    ++ "\n\nReturn only the rewritten bullet point, no additional text.\n")

/-- RewriteResume.rewrite_text: with no client the prompt itself is
returned; a successful query yields the stripped response text; a raising
query is caught and the prompt itself is returned. -/
def rewriteText (prompt : String) (llm : Option (String → Except Unit PyVal)) : String :=
  match llm with
  | Option.none => prompt
  | some query =>
    match query prompt with
    | .ok (.str s) => pyStrip s
    | .ok v => pyStrip (pyStrOf v)
    | .error _ => prompt

/-- The summary branch of rewrite_resume_data: when a truthy summary is
present, join a list summary with spaces (a raise here escapes the
function), build the prompt (a raise here is caught and the summary kept),
and substitute the rewritten text. -/
def rewriteSummaryStep (resume jobAnalysis : PyDict)
    (llm : Option (String → Except Unit PyVal)) : Except Unit PyDict :=
  if dictHasKey resume "summary" && pyTruthy (dictGetD resume "summary" .none) then
    let summaryText := dictGetD resume "summary" .none
    let joined : Except Unit PyVal :=
      match summaryText with
      | .list xs => (pyJoin " " xs).map .str
      | v => .ok v
    match joined with
    | .error e => .error e
    | .ok sv =>
      match summaryPromptE (pyStrOf sv) jobAnalysis with
      | .ok prompt => .ok (dictSet resume "summary" (.str (rewriteText prompt llm)))
      | .error _ => .ok resume
  else .ok resume

/-- The per-role branch of rewrite_resume_data: copy the role dict (a
non-dict role raises), rewrite each bullet of a bullet list independently
keeping the original bullet when prompt construction raises, and treat a
non-list bullets value as a single bullet whose failure leaves the copied
role untouched. -/
def rewriteRole (jobAnalysis : PyDict) (llm : Option (String → Except Unit PyVal))
    (role : PyVal) : Except Unit PyVal :=
  match role with
  | .dict kvs =>
    match dictGetD kvs "bullets" (.list []) with
    | .list bs =>
      .ok (.dict (dictSet kvs "bullets" (.list (bs.map (fun b =>
        match bulletPromptE (pyStrOf b) jobAnalysis with
        | .ok p => .str (rewriteText p llm)
        | .error _ => b)))))
    | bv =>
      match bulletPromptE (pyStrOf bv) jobAnalysis with
      | .ok p => .ok (.dict (dictSet kvs "bullets" (.list [.str (rewriteText p llm)])))
      | .error _ => .ok (.dict kvs)
  | _ => .error ()

/-- The experience branch of rewrite_resume_data: a truthy experience value
is rebuilt as a list; a nonempty list whose first element is a dict is
treated as roles, any other nonempty list as flat items rewritten
independently, and every other truthy shape collapses to the empty list. -/
def rewriteExperienceStep (jobAnalysis : PyDict)
    (llm : Option (String → Except Unit PyVal)) (resume : PyDict) :
    Except Unit PyDict :=
  if dictHasKey resume "experience" && pyTruthy (dictGetD resume "experience" .none) then
    match dictGetD resume "experience" .none with
    | .list (first :: rest) =>
      match first with
      | .dict _ => do
        let roles ← (first :: rest).mapM (rewriteRole jobAnalysis llm)
        .ok (dictSet resume "experience" (.list roles))
      | _ =>
        .ok (dictSet resume "experience" (.list ((first :: rest).map (fun item =>
          match bulletPromptE (pyStrOf item) jobAnalysis with
          | .ok p => .str (rewriteText p llm)
          | .error _ => item))))
    | _ => .ok (dictSet resume "experience" (.list []))
  else .ok resume

/-- RewriteResume.rewrite_resume_data: the summary branch followed by the
experience branch on a copy of the input record. -/
def rewriteResumeData (resume jobAnalysis : PyDict)
    (llm : Option (String → Except Unit PyVal)) : Except Unit PyDict := do
  let afterSummary ← rewriteSummaryStep resume jobAnalysis llm
  rewriteExperienceStep jobAnalysis llm afterSummary

/-! Section: Named views of the section pattern table -/

/-- The keyword synonym list of each section, exactly the lists of
section_patterns. -/
def sectionKeywords : SectionName → List String
  | .summary => ["summary", "professional summary", "objective", "profile", "about"]
  | .skills => ["skills", "technical skills", "core competencies", "competencies", "expertise"]
  | .experience => ["experience", "work experience", "employment", "work history", "professional experience"]
  | .projects => ["projects", "project experience", "key projects", "notable projects"]
  | .education => ["education", "academic background", "qualifications", "academic qualifications"]

/-- True when the cleaned lowercased line contains a keyword of the given
section. -/
def matchesSection (s : SectionName) (line : String) : Bool :=
  matchesPatterns (sectionKeywords s) line

/-! Section: Concrete scenario for the failing-bullet rewrite claim -/

/-- Concrete job analysis for the failing-bullet scenario of the rewrite
pass. -/
def c2Job : PyDict := [("keywords", PyVal.list [PyVal.str "go"])]

/-- The prompt the rewrite pass builds for the middle bullet b2. -/
def c2FailPrompt : String :=
  match bulletPromptE "b2" c2Job with
  | .ok p => p
  | .error _ => ""

/-- A rewrite function that raises exactly on the prompt for bullet b2 and
rewrites every other prompt. -/
def c2Query : String → Except Unit PyVal :=
  fun p => if p = c2FailPrompt then .error () else .ok (.str "rewritten")

/-- A resume with one role holding the three bullets b1, b2, b3. -/
def c2Resume : PyDict :=
  [("experience", PyVal.list
    [PyVal.dict [("bullets", PyVal.list [PyVal.str "b1", PyVal.str "b2", PyVal.str "b3"])]])]

/-! Section: Spec-side formulations used by the matcher claims -/

/-- Normalization as the spec words it: lowercase, strip leading and
trailing whitespace, drop empty entries, collected as a set. -/
def specNormalizeSkills (xs : List String) : Finset String :=
  (xs.filterMap (fun s => if s = "" then Option.none else some (pyStrip (pyLower s)))).toFinset

/-- Flattening of a resume skills value as the spec words it: a mapping has
all category values flattened, a scalar category value counting as a
one-element sequence. -/
def specFlattenSkills : SkillsData → List String
  | .flat xs => xs
  | .categorized cats => (cats.map Prod.snd).flatMap catElems
  | .other => []

/-- Spec-side resume skill set: flatten, then normalize. -/
def specResumeSkills (sd : SkillsData) : Finset String :=
  specNormalizeSkills (specFlattenSkills sd)

/-! Section: Dictionary lemmas -/

theorem dictGet_map_replace_self (d : PyDict) (k : String) (v : PyVal)
    (h : dictHasKey d k = true) :
    dictGet (d.map (fun kv => if kv.1 = k then (k, v) else kv)) k = some v := by
  induction d with
  | nil => simp [dictHasKey, dictGet] at h
  | cons kv rest ih =>
    by_cases hk : kv.1 = k
    · simp [dictGet, hk]
    · have h' : dictHasKey rest k = true := by
        simpa [dictHasKey, dictGet, List.find?_cons, hk] using h
      simpa [dictGet, List.find?_cons, hk] using ih h'

theorem dictGet_map_replace_ne (d : PyDict) (k : String) (v : PyVal) (k' : String)
    (h : k' ≠ k) :
    dictGet (d.map (fun kv => if kv.1 = k then (k, v) else kv)) k' = dictGet d k' := by
  induction d with
  | nil => rfl
  | cons kv rest ih =>
    by_cases hk : kv.1 = k
    · have hkk' : ¬(k = k') := fun hh => h hh.symm
      have hkvk' : ¬(kv.1 = k') := by rw [hk]; exact hkk'
      simpa [dictGet, List.find?_cons, hk, hkk', hkvk'] using ih
    · by_cases hk' : kv.1 = k'
      · simp only [List.map_cons, if_neg hk]
        simp [dictGet, List.find?_cons, hk']
      · simpa [dictGet, List.find?_cons, hk, hk'] using ih

theorem dictGet_append_single_self (d : PyDict) (k : String) (v : PyVal)
    (h : dictHasKey d k = false) :
    dictGet (d ++ [(k, v)]) k = some v := by
  induction d with
  | nil => simp [dictGet]
  | cons kv rest ih =>
    by_cases hk : kv.1 = k
    · simp [dictHasKey, dictGet, List.find?_cons, hk] at h
    · have h' : dictHasKey rest k = false := by
        simpa [dictHasKey, dictGet, List.find?_cons, hk] using h
      simpa [dictGet, List.find?_cons, hk] using ih h'

theorem dictGet_append_single_ne (d : PyDict) (k : String) (v : PyVal) (k' : String)
    (h : k' ≠ k) :
    dictGet (d ++ [(k, v)]) k' = dictGet d k' := by
  induction d with
  | nil =>
    have hkk' : ¬(k = k') := fun hh => h hh.symm
    simp [dictGet, hkk']
  | cons kv rest ih =>
    by_cases hk' : kv.1 = k'
    · simp [dictGet, List.find?_cons, hk']
    · simpa [dictGet, List.find?_cons, hk'] using ih

theorem dictGet_dictSet_self (d : PyDict) (k : String) (v : PyVal) :
    dictGet (dictSet d k v) k = some v := by
  unfold dictSet
  by_cases h : dictHasKey d k = true
  · rw [if_pos h]
    exact dictGet_map_replace_self d k v h
  · rw [if_neg h]
    exact dictGet_append_single_self d k v (by simpa using h)

theorem dictGet_dictSet_ne (d : PyDict) (k : String) (v : PyVal) (k' : String)
    (h : k' ≠ k) : dictGet (dictSet d k v) k' = dictGet d k' := by
  unfold dictSet
  by_cases hhas : dictHasKey d k = true
  · rw [if_pos hhas]
    exact dictGet_map_replace_ne d k v k' h
  · rw [if_neg hhas]
    exact dictGet_append_single_ne d k v k' h

/-! Section: Claim theorems: skill matching -/

theorem specNormalizeSkills_eq (xs : List String) :
    specNormalizeSkills xs = normSkillSet xs := by
  unfold specNormalizeSkills normSkillSet
  congr 1
  induction xs with
  | nil => rfl
  | cons x t ih =>
    by_cases hx : x = "" <;>
      simp [List.filterMap_cons, List.filter_cons, hx, ih, normSkill]

theorem specResumeSkills_eq (sd : SkillsData) :
    specResumeSkills sd = resumeSkillsSet sd := by
  cases sd <;>
    simp [specResumeSkills, specFlattenSkills, resumeSkillsSet,
      specNormalizeSkills_eq, normSkillSet]

/-- C1: for every resume skills input and every job analysis, the match
report produced by match_resume_to_job has safe_to_add equal to the empty
sequence, and the (total) computation raises no exception. -/
theorem matchReport_safe_to_add_empty (sd : SkillsData) (ja : Option JobAnalysis)
    (r : MatchReport) (h : matchResumeToJob sd ja = some r) :
    r.safe_to_add = [] := by
  cases ja with
  | none => simp [matchResumeToJob] at h
  | some a =>
    simp only [matchResumeToJob, Option.some.injEq] at h
    rw [← h]

/-- Witness for C1 at a concrete skills list and job analysis. -/
theorem matchReport_safe_to_add_empty_witness :
    (matchResumeToJob (.flat ["Python "])
        (some { required_skills := ["python"] })).elim False
      (fun r => r.safe_to_add = []) := by
  cases hm : matchResumeToJob (.flat ["Python "])
      (some { required_skills := ["python"] }) with
  | none => simp [matchResumeToJob] at hm
  | some r =>
    simpa [Option.elim] using
      matchReport_safe_to_add_empty (.flat ["Python "])
        (some { required_skills := ["python"] }) r hm

/-- C3: match_resume_to_job normalizes both sides (lowercase, strip, drop
empty entries, flattening a category mapping with scalars as one-element
sequences) and returns exactly the set algebra of the claim, with
resume_gaps the same set as missing_required. -/
theorem matchResumeToJob_set_algebra (sd : SkillsData) (ja : JobAnalysis) :
    matchResumeToJob sd (some ja) = some
      { matched_required_skills :=
          specResumeSkills sd ∩ specNormalizeSkills ja.required_skills,
        missing_required_skills :=
          specNormalizeSkills ja.required_skills \ specResumeSkills sd,
        matched_preferred_skills :=
          specResumeSkills sd ∩ specNormalizeSkills ja.preferred_skills,
        emphasize_skills :=
          (specResumeSkills sd ∩ specNormalizeSkills ja.required_skills) ∪
            (specResumeSkills sd ∩ specNormalizeSkills ja.preferred_skills),
        resume_gaps :=
          specNormalizeSkills ja.required_skills \ specResumeSkills sd,
        safe_to_add := [] } := by
  simp [matchResumeToJob, specNormalizeSkills_eq, specResumeSkills_eq]

/-- C9: with no LLM client, analyze_jobs ignores its input and returns the
empty list. -/
theorem analyzeJobs_no_client (jsonLoads : String → Except Unit PyVal)
    (jobs : List PyDict) : analyzeJobs Option.none jsonLoads jobs = [] := rfl

/-! Section: Claim theorems: section segmentation -/

theorem foldl_sectionStep_no_header (lines : List String)
    (st : Option SectionName × (SectionName → String))
    (h : ∀ l ∈ lines, classifyLine l = Option.none) (hcur : st.1 = Option.none) :
    lines.foldl sectionStep st = st := by
  induction lines generalizing st with
  | nil => rfl
  | cons l rest ih =>
    rw [List.foldl_cons]
    have hstep : sectionStep st l = st := by
      simp [sectionStep, h l (List.mem_cons_self l rest), hcur]
    rw [hstep]
    exact ih st (fun l' hl' => h l' (List.mem_cons_of_mem _ hl')) hcur

/-- C6: when no line of the raw text is classified as a section header,
segment returns every one of the five sections as the empty list, and the
computation is total. -/
theorem segment_of_no_headers (text : String)
    (h : ∀ line ∈ pySplitlines text, classifyLine line = Option.none) :
    ∀ s, segment text s = [] := by
  intro s
  unfold segment splitIntoSections
  rw [foldl_sectionStep_no_header (pySplitlines text) _ h rfl]
  rfl

/-- Witness for C6: a two-line text with no header keywords segments to
five empty sections. -/
theorem segment_of_no_headers_witness :
    segment "hello\nworld" SectionName.summary = [] ∧
    segment "hello\nworld" SectionName.skills = [] ∧
    segment "hello\nworld" SectionName.experience = [] ∧
    segment "hello\nworld" SectionName.projects = [] ∧
    segment "hello\nworld" SectionName.education = [] := by
  have h := segment_of_no_headers "hello\nworld" (by decide)
  exact ⟨h .summary, h .skills, h .experience, h .projects, h .education⟩

theorem findSection_eq_find? (pats : List (SectionName × List String)) (line : String)
    (hlen : (pyStrip line).length < 50) :
    findSection pats line =
      (pats.find? (fun np => matchesPatterns np.2 line)).map Prod.fst := by
  induction pats with
  | nil => rfl
  | cons np rest ih =>
    by_cases hm : matchesPatterns np.2 line = true
    · simp [findSection, hm, hlen, List.find?_cons]
    · have hm' : matchesPatterns np.2 line = false := by simpa using hm
      simp [findSection, hm', List.find?_cons, ih]

theorem find?_map_fst_sections (line : String) (ps : List (SectionName × List String)) :
    (∀ np ∈ ps, sectionKeywords np.1 = np.2) →
    (ps.find? (fun np => matchesPatterns np.2 line)).map Prod.fst =
      (ps.map Prod.fst).find? (fun s => matchesSection s line) := by
  induction ps with
  | nil => intro _; rfl
  | cons np rest ih =>
    intro h
    have hk : sectionKeywords np.1 = np.2 := h np (List.mem_cons_self _ _)
    cases hm : matchesPatterns np.2 line with
    | true => simp [List.find?_cons, hm, matchesSection, hk]
    | false =>
      simp [List.find?_cons, hm, matchesSection, hk,
        ih (fun q hq => h q (List.mem_cons_of_mem _ hq))]

/-- C8: for a line shorter than the header threshold that matches the
keyword lists of at least two distinct sections, classification returns the
first matching section in the fixed order summary, skills, experience,
projects, education. -/
theorem classifyLine_first_match (line : String) (s₁ s₂ : SectionName)
    (hlen : (pyStrip line).length < 50)
    (_h1 : matchesSection s₁ line = true) (_h2 : matchesSection s₂ line = true)
    (_hne : s₁ ≠ s₂) :
    classifyLine line =
      [SectionName.summary, SectionName.skills, SectionName.experience,
       SectionName.projects, SectionName.education].find?
        (fun s => matchesSection s line) := by
  have hcoh : ∀ np ∈ sectionPatterns, sectionKeywords np.1 = np.2 := by decide
  unfold classifyLine
  rw [findSection_eq_find? sectionPatterns line hlen,
    find?_map_fst_sections line sectionPatterns hcoh]
  rfl

/-- Witness for C8: the line skills summary matches both the summary and
the skills keyword lists and is classified as summary, the first section in
the iteration order. -/
theorem classifyLine_first_match_witness :
    classifyLine "skills summary" =
      [SectionName.summary, SectionName.skills, SectionName.experience,
       SectionName.projects, SectionName.education].find?
        (fun s => matchesSection s "skills summary") ∧
    classifyLine "skills summary" = some SectionName.summary := by
  refine ⟨classifyLine_first_match "skills summary" SectionName.summary
    SectionName.skills (by decide) (by decide) (by decide) (by decide), by decide⟩

/-! Section: Claim theorems: normalization idempotence -/

theorem dropWhile_eq_self_of_head? (q : Char → Bool) (l : List Char)
    (h : ∀ a, l.head? = some a → q a = false) : l.dropWhile q = l := by
  cases l with
  | nil => rfl
  | cons a t => simp [List.dropWhile_cons, h a rfl]

theorem rdropWhile_eq_self_of_getLast? (q : Char → Bool) (l : List Char)
    (h : ∀ a, l.getLast? = some a → q a = false) : l.rdropWhile q = l := by
  unfold List.rdropWhile
  rw [dropWhile_eq_self_of_head? q l.reverse
    (fun a ha => h a (by rwa [List.head?_reverse] at ha))]
  exact List.reverse_reverse l

theorem stripBoth_eq_self (q : Char → Bool) (l : List Char)
    (hh : ∀ a, l.head? = some a → q a = false)
    (hl : ∀ a, l.getLast? = some a → q a = false) :
    stripBoth q l = l := by
  unfold stripBoth
  rw [dropWhile_eq_self_of_head? q l hh]
  exact rdropWhile_eq_self_of_getLast? q l hl

theorem stripBoth_head?_not (p : Char → Bool) (cs : List Char) (a : Char)
    (h : (stripBoth p cs).head? = some a) : p a = false := by
  have hne : stripBoth p cs ≠ [] := by intro hnil; rw [hnil] at h; cases h
  obtain ⟨t, ht⟩ := List.rdropWhile_prefix p (cs.dropWhile p)
  cases hsb : stripBoth p cs with
  | nil => exact absurd hsb hne
  | cons x xs =>
    have hax : x = a := by rw [hsb] at h; simpa using h
    have hdwne : cs.dropWhile p ≠ [] := by
      intro hnil
      have hempty : stripBoth p cs = [] := by
        unfold stripBoth; rw [hnil]; rfl
      exact hne hempty
    have ht' : cs.dropWhile p = (x :: xs) ++ t := by
      rw [← ht]; unfold stripBoth at hsb; rw [hsb]
    have hdw : (cs.dropWhile p).head? = some a := by rw [ht']; simp [hax]
    have hnp := List.head_dropWhile_not p cs hdwne
    have hheq : (cs.dropWhile p).head hdwne = a := by
      rw [List.head?_eq_head hdwne] at hdw
      exact Option.some.inj hdw
    rw [hheq] at hnp
    simpa using hnp

theorem stripBoth_getLast?_not (p : Char → Bool) (cs : List Char) (a : Char)
    (h : (stripBoth p cs).getLast? = some a) : p a = false := by
  have hne : stripBoth p cs ≠ [] := by intro hnil; rw [hnil] at h; cases h
  have hne' : (cs.dropWhile p).rdropWhile p ≠ [] := by
    unfold stripBoth at hne; exact hne
  have hnp := List.rdropWhile_last_not p (cs.dropWhile p) hne'
  have hgl : ((cs.dropWhile p).rdropWhile p).getLast hne' = a := by
    unfold stripBoth at h
    rw [List.getLast?_eq_getLast _ hne'] at h
    exact Option.some.inj h
  rw [hgl] at hnp
  simpa using hnp

theorem stripBoth_subset (p : Char → Bool) (cs : List Char) (c : Char)
    (h : c ∈ stripBoth p cs) : c ∈ cs := by
  unfold stripBoth at h
  exact (List.dropWhile_suffix p).subset ((List.rdropWhile_prefix p (cs.dropWhile p)).subset h)

theorem stripBoth_idem (p : Char → Bool) (cs : List Char) :
    stripBoth p (stripBoth p cs) = stripBoth p cs :=
  stripBoth_eq_self p _ (fun a ha => stripBoth_head?_not p cs a ha)
    (fun a ha => stripBoth_getLast?_not p cs a ha)

theorem stripBoth_space_glyph_fix (cs : List Char)
    (hsp : ∀ c ∈ cs, pyIsSpace c = true → c = ' ') :
    stripBoth pyIsSpace (stripBoth isBulletGlyph cs) = stripBoth isBulletGlyph cs := by
  apply stripBoth_eq_self
  · intro a ha
    by_cases hs : pyIsSpace a = true
    · have hmem : a ∈ stripBoth isBulletGlyph cs :=
        List.mem_of_mem_head? (by simpa using ha)
      have haa : a = ' ' := hsp a (stripBoth_subset _ _ _ hmem) hs
      have hg := stripBoth_head?_not isBulletGlyph cs a ha
      rw [haa] at hg
      exact absurd hg (by decide)
    · simpa using hs
  · intro a ha
    by_cases hs : pyIsSpace a = true
    · have hmem : a ∈ stripBoth isBulletGlyph cs :=
        List.mem_of_mem_getLast? (by simpa using ha)
      have haa : a = ' ' := hsp a (stripBoth_subset _ _ _ hmem) hs
      have hg := stripBoth_getLast?_not isBulletGlyph cs a ha
      rw [haa] at hg
      exact absurd hg (by decide)
    · simpa using hs

theorem cleanLine_fix (l : String)
    (hsp : ∀ c ∈ l.data, pyIsSpace c = true → c = ' ') :
    cleanLine (cleanLine l) = cleanLine l := by
  have hcs := stripBoth_space_glyph_fix l.data hsp
  have hcl : cleanLine l = String.mk (stripBoth isBulletGlyph l.data) := by
    show String.mk (stripBoth pyIsSpace (stripBoth isBulletGlyph l.data)) =
      String.mk (stripBoth isBulletGlyph l.data)
    rw [hcs]
  rw [hcl]
  show String.mk (stripBoth pyIsSpace (stripBoth isBulletGlyph
    (stripBoth isBulletGlyph l.data))) = String.mk (stripBoth isBulletGlyph l.data)
  rw [stripBoth_idem, hcs]

theorem splitlinesAux_chars : ∀ (cs acc : List Char),
    (∀ c ∈ acc, ¬(c = '\n' ∨ c = '\x0d')) →
    ∀ line ∈ splitlinesAux cs acc, ∀ c ∈ line.data,
      (c ∈ cs ∨ c ∈ acc) ∧ ¬(c = '\n' ∨ c = '\x0d') := by
  intro cs acc
  induction cs, acc using splitlinesAux.induct with
  | case1 acc hae =>
    intro hacc line hline
    rw [splitlinesAux, if_pos hae] at hline
    simp at hline
  | case2 acc hae =>
    intro hacc line hline c hc
    rw [splitlinesAux, if_neg hae] at hline
    rw [List.mem_singleton] at hline
    subst hline
    have hc' : c ∈ acc := by simpa using hc
    exact ⟨Or.inr hc', hacc c hc'⟩
  | case3 rest acc ih =>
    intro hacc line hline c hc
    rw [splitlinesAux] at hline
    rcases List.mem_cons.mp hline with rfl | hline'
    · have hc' : c ∈ acc := by simpa using hc
      exact ⟨Or.inr hc', hacc c hc'⟩
    · obtain ⟨hm, hn⟩ := ih (by simp) line hline' c hc
      refine ⟨Or.inl ?_, hn⟩
      rcases hm with hm | hm
      · exact List.mem_cons_of_mem _ (List.mem_cons_of_mem _ hm)
      · exact absurd hm (List.not_mem_nil c)
  | case4 rest acc ih =>
    intro hacc line hline c hc
    rw [splitlinesAux] at hline
    rcases List.mem_cons.mp hline with rfl | hline'
    · have hc' : c ∈ acc := by simpa using hc
      exact ⟨Or.inr hc', hacc c hc'⟩
    · obtain ⟨hm, hn⟩ := ih (by simp) line hline' c hc
      refine ⟨Or.inl ?_, hn⟩
      rcases hm with hm | hm
      · exact List.mem_cons_of_mem _ hm
      · exact absurd hm (List.not_mem_nil c)
  | case5 rest acc hcond ih =>
    intro hacc line hline c hc
    rw [splitlinesAux] at hline
    · rcases List.mem_cons.mp hline with rfl | hline'
      · have hc' : c ∈ acc := by simpa using hc
        exact ⟨Or.inr hc', hacc c hc'⟩
      · obtain ⟨hm, hn⟩ := ih (by simp) line hline' c hc
        refine ⟨Or.inl ?_, hn⟩
        rcases hm with hm | hm
        · exact List.mem_cons_of_mem _ hm
        · exact absurd hm (List.not_mem_nil c)
    · exact hcond
  | case6 c' rest acc h1 h2 h3 ih =>
    intro hacc line hline c hc
    rw [splitlinesAux] at hline
    · have hacc' : ∀ x ∈ c' :: acc, ¬(x = '\n' ∨ x = '\x0d') := by
        intro x hx
        rcases List.mem_cons.mp hx with rfl | hx'
        · rintro (hh | hh)
          · exact h2 hh
          · exact h3 hh
        · exact hacc x hx'
      obtain ⟨hm, hn⟩ := ih hacc' line hline c hc
      refine ⟨?_, hn⟩
      rcases hm with hm | hm
      · exact Or.inl (List.mem_cons_of_mem _ hm)
      · rcases List.mem_cons.mp hm with rfl | hx'
        · exact Or.inl (List.mem_cons_self _ _)
        · exact Or.inr hx'
    · exact h1
    · exact h2
    · exact h3

theorem pySplitlines_chars (s : String) (line : String) (hline : line ∈ pySplitlines s)
    (c : Char) (hc : c ∈ line.data) :
    c ∈ s.data ∧ ¬(c = '\n' ∨ c = '\x0d') := by
  have h := splitlinesAux_chars s.data [] (by simp) line hline c hc
  exact ⟨h.1.resolve_right (by simp), h.2⟩

/-- C7 counterexample: on the section text consisting of a tab, a dash and
the word hello, one normalization pass leaves a leading dash in place, so a
second pass changes the result and idempotence fails. -/
theorem normalizeSectionText_not_idempotent :
    normalizeLines (normalizeSectionText "\t- hello") ≠
      normalizeSectionText "\t- hello" := by
  decide

/-- C7 amended: normalization strips the characters bullet, dash, space
and star from both ends, then strips whitespace from both ends, drops
empty lines and preserves order; it is idempotent on section texts whose
whitespace characters are only spaces and newlines, though not on texts
with other whitespace such as tabs. -/
theorem normalizeSectionText_idempotent_space_only (value : String)
    (hws : ∀ c ∈ value.data, pyIsSpace c = true → c = ' ' ∨ c = '\n') :
    normalizeLines (normalizeSectionText value) = normalizeSectionText value := by
  have hline : ∀ l ∈ pySplitlines value, ∀ c ∈ l.data, pyIsSpace c = true → c = ' ' := by
    intro l hl c hc hspace
    have h := pySplitlines_chars value l hl c hc
    rcases hws c h.1 hspace with h' | h'
    · exact h'
    · exact absurd (Or.inl h') h.2
  have hfix : ∀ x ∈ normalizeSectionText value, cleanLine x = x := by
    intro x hx
    unfold normalizeSectionText at hx
    obtain ⟨hx1, hx2⟩ := List.mem_filter.mp hx
    obtain ⟨l, hl, rfl⟩ := List.mem_map.mp hx1
    exact cleanLine_fix l (hline l hl)
  unfold normalizeLines
  have hmap : (normalizeSectionText value).map cleanLine = normalizeSectionText value := by
    conv_rhs => rw [← List.map_id (normalizeSectionText value)]
    exact List.map_congr_left hfix
  rw [hmap]
  apply List.filter_eq_self.mpr
  intro a ha
  unfold normalizeSectionText at ha
  exact (List.mem_filter.mp ha).2

/-- Witness for the amended C7 at a concrete bulleted two-line section
text containing only spaces and newlines as whitespace. -/
theorem normalizeSectionText_idempotent_space_only_witness :
    normalizeLines (normalizeSectionText "• hello\n - world") =
      normalizeSectionText "• hello\n - world" :=
  normalizeSectionText_idempotent_space_only "• hello\n - world" (by decide)

/-! Section: Claim theorems: batch analysis and parsing -/

theorem extractJobMeta_description (job : PyDict) :
    dictGetD (extractJobMeta job) "description" PyVal.none =
      dictGetD job "description" PyVal.none := by
  simp [extractJobMeta, dictGetD, dictGet, List.find?]

/-- C4: analyze_jobs returns a parallel ordered sequence of the same
length, each entry carrying the metadata of the job at the same position,
with a None analysis exactly when the description is falsy or the analysis
of the description came back empty; entries are processed independently by
construction. -/
theorem analyzeJobs_parallel (query jsonLoads : String → Except Unit PyVal)
    (jobs : List PyDict) :
    (analyzeJobs (some query) jsonLoads jobs).length = jobs.length ∧
    ∀ (i : Nat) (e : AnalyzedJob) (j : PyDict),
      (analyzeJobs (some query) jsonLoads jobs)[i]? = some e →
      jobs[i]? = some j →
      e.job_meta = extractJobMeta j ∧
      (e.analysis = Option.none ↔
        (pyTruthy (dictGetD j "description" PyVal.none) = false ∨
         analyzeValue query jsonLoads (dictGetD j "description" PyVal.none) =
           Option.none)) := by
  constructor
  · simp [analyzeJobs]
  · intro i e j he hj
    rw [show analyzeJobs (some query) jsonLoads jobs =
      (jobs.map extractJobMeta).map (fun job =>
        if pyTruthy (dictGetD job "description" PyVal.none) then
          { job_meta := job,
            analysis := analyzeValue query jsonLoads (dictGetD job "description" PyVal.none) }
        else { job_meta := job, analysis := Option.none }) from rfl] at he
    rw [List.getElem?_map, List.getElem?_map, hj] at he
    simp only [Option.map_some', Option.some.injEq] at he
    subst he
    rw [extractJobMeta_description]
    cases htr : pyTruthy (dictGetD j "description" PyVal.none) with
    | true => simp [htr]
    | false => simp [htr]

/-- Witness for C4: a batch of three jobs where the middle description is
empty; the output is parallel and exactly the middle analysis is None. -/
theorem analyzeJobs_parallel_witness :
    (analyzeJobs (some (fun _ => Except.ok (PyVal.dict [("required_skills", PyVal.list [PyVal.str "go"])])))
        (fun _ => Except.error ())
        [[("title", PyVal.str "a"), ("description", PyVal.str "dev job")],
         [("title", PyVal.str "b"), ("description", PyVal.str "")],
         [("title", PyVal.str "c"), ("description", PyVal.str "qa job")]]).length = 3 ∧
    ({ job_meta := extractJobMeta [("title", PyVal.str "b"), ("description", PyVal.str "")],
       analysis := Option.none } : AnalyzedJob).analysis = Option.none := by
  have h := analyzeJobs_parallel
    (fun _ => Except.ok (PyVal.dict [("required_skills", PyVal.list [PyVal.str "go"])]))
    (fun _ => Except.error ())
    [[("title", PyVal.str "a"), ("description", PyVal.str "dev job")],
     [("title", PyVal.str "b"), ("description", PyVal.str "")],
     [("title", PyVal.str "c"), ("description", PyVal.str "qa job")]]
  refine ⟨h.1, ?_⟩
  have h2 := h.2 1
    { job_meta := extractJobMeta [("title", PyVal.str "b"), ("description", PyVal.str "")],
      analysis := Option.none }
    [("title", PyVal.str "b"), ("description", PyVal.str "")] rfl rfl
  exact (h2.2).mpr (Or.inl rfl)

/-- C5: when the LLM response to the analysis prompt is already a
structured mapping, the parse step accepts it unchanged with no error, and
the JobAnalysis view of the mapping defaults every missing field to the
empty sequence, or the empty string for seniority_level. -/
theorem analyzeSingle_dict_defaults (query jsonLoads : String → Except Unit PyVal)
    (desc : String) (kvs : List (String × PyVal))
    (h1 : desc ≠ "") (h2 : pyStrip desc ≠ "")
    (hq : query (analysisPrompt desc) = .ok (.dict kvs)) :
    analyzeSingle query jsonLoads desc = some (.dict kvs) ∧
    (dictGet kvs "required_skills" = Option.none →
      (jobAnalysisOfDict kvs).required_skills = []) ∧
    (dictGet kvs "preferred_skills" = Option.none →
      (jobAnalysisOfDict kvs).preferred_skills = []) ∧
    (dictGet kvs "tools" = Option.none → (jobAnalysisOfDict kvs).tools = []) ∧
    (dictGet kvs "seniority_level" = Option.none →
      (jobAnalysisOfDict kvs).seniority_level = "") ∧
    (dictGet kvs "responsibilities" = Option.none →
      (jobAnalysisOfDict kvs).responsibilities = []) ∧
    (dictGet kvs "keywords" = Option.none → (jobAnalysisOfDict kvs).keywords = []) := by
  refine ⟨?_, ?_, ?_, ?_, ?_, ?_, ?_⟩
  · unfold analyzeSingle
    rw [if_neg (by simp [h1, h2]), hq]
  · intro hk; simp [jobAnalysisOfDict, dictGetD, hk, pyStrElems]
  · intro hk; simp [jobAnalysisOfDict, dictGetD, hk, pyStrElems]
  · intro hk; simp [jobAnalysisOfDict, dictGetD, hk, pyStrElems]
  · intro hk; simp [jobAnalysisOfDict, dictGetD, hk]
  · intro hk; simp [jobAnalysisOfDict, dictGetD, hk, pyStrElems]
  · intro hk; simp [jobAnalysisOfDict, dictGetD, hk, pyStrElems]

/-- Witness for C5 at a concrete description and an empty mapping
response: every field of the resulting view is defaulted. -/
theorem analyzeSingle_dict_defaults_witness :
    analyzeSingle (fun _ => Except.ok (PyVal.dict [])) (fun _ => Except.error ()) "dev" =
      some (PyVal.dict []) ∧
    (jobAnalysisOfDict []).required_skills = [] ∧
    (jobAnalysisOfDict []).seniority_level = "" := by
  have h := analyzeSingle_dict_defaults (fun _ => Except.ok (PyVal.dict []))
    (fun _ => Except.error ()) "dev" [] (by decide) (by decide) rfl
  exact ⟨h.1, h.2.1 rfl, h.2.2.2.2.1 rfl⟩

/-! Section: Claim theorems: the rewrite pass -/

theorem rewriteSummaryStep_shape (resume jobAnalysis : PyDict)
    (llm : Option (String → Except Unit PyVal)) :
    rewriteSummaryStep resume jobAnalysis llm = .error () ∨
    rewriteSummaryStep resume jobAnalysis llm = .ok resume ∨
    ∃ s, rewriteSummaryStep resume jobAnalysis llm =
      .ok (dictSet resume "summary" (PyVal.str s)) := by
  unfold rewriteSummaryStep
  split
  · dsimp only
    split
    · rename_i e heq
      cases e
      exact Or.inl rfl
    · split
      · rename_i sv heq p hp
        exact Or.inr (Or.inr ⟨rewriteText p llm, rfl⟩)
      · exact Or.inr (Or.inl rfl)
  · exact Or.inr (Or.inl rfl)

/-- C10: a present, truthy, non-list experience value is discarded and
replaced by the empty list, while every key other than summary and
experience keeps its original value. -/
theorem rewriteResumeData_nonlist_experience (resume jobAnalysis : PyDict)
    (llm : Option (String → Except Unit PyVal)) (v : PyVal) (out : PyDict)
    (hget : dictGet resume "experience" = some v)
    (htr : pyTruthy v = true)
    (hnl : ∀ xs, v ≠ PyVal.list xs)
    (hok : rewriteResumeData resume jobAnalysis llm = .ok out) :
    dictGet out "experience" = some (PyVal.list []) ∧
    ∀ k, k ≠ "summary" → k ≠ "experience" → dictGet out k = dictGet resume k := by
  cases hmid : rewriteSummaryStep resume jobAnalysis llm with
  | error e =>
    cases e
    simp [rewriteResumeData, hmid, Bind.bind, Except.bind] at hok
  | ok mid =>
    have hbind : rewriteExperienceStep jobAnalysis llm mid = .ok out := by
      simpa [rewriteResumeData, hmid, Bind.bind, Except.bind] using hok
    have hmid_other : ∀ k, k ≠ "summary" → dictGet mid k = dictGet resume k := by
      rcases rewriteSummaryStep_shape resume jobAnalysis llm with h | h | ⟨s, h⟩
      · rw [h] at hmid; exact absurd hmid (by simp)
      · rw [h] at hmid
        have : resume = mid := by injection hmid
        intro k _
        rw [← this]
      · rw [h] at hmid
        have hmideq : dictSet resume "summary" (PyVal.str s) = mid := by injection hmid
        intro k hk
        rw [← hmideq, dictGet_dictSet_ne resume "summary" (PyVal.str s) k hk]
    have hmid_exp : dictGet mid "experience" = some v := by
      rw [hmid_other "experience" (by decide), hget]
    have hgetd : dictGetD mid "experience" PyVal.none = v := by
      unfold dictGetD
      rw [hmid_exp]
      rfl
    have hcond : (dictHasKey mid "experience" &&
        pyTruthy (dictGetD mid "experience" PyVal.none)) = true := by
      unfold dictHasKey
      rw [hmid_exp, hgetd, htr]
      rfl
    have hout : out = dictSet mid "experience" (PyVal.list []) := by
      unfold rewriteExperienceStep at hbind
      rw [if_pos hcond, hgetd] at hbind
      cases v with
      | none => simp [pyTruthy] at htr
      | str s =>
        have := hbind
        injection this with h'
        exact h'.symm
      | list xs => exact absurd rfl (hnl xs)
      | dict kvs =>
        have := hbind
        injection this with h'
        exact h'.symm
    rw [hout]
    refine ⟨dictGet_dictSet_self mid "experience" (PyVal.list []), ?_⟩
    intro k hk1 hk2
    rw [dictGet_dictSet_ne mid "experience" (PyVal.list []) k hk2, hmid_other k hk1]

/-- Witness for C10: a resume whose experience is a non-empty string comes
back with an empty experience list and an untouched education entry. -/
theorem rewriteResumeData_nonlist_experience_witness :
    dictGet [("experience", PyVal.list []), ("education", PyVal.list [PyVal.str "BS"])]
      "experience" = some (PyVal.list []) ∧
    ∀ k, k ≠ "summary" → k ≠ "experience" →
      dictGet [("experience", PyVal.list []), ("education", PyVal.list [PyVal.str "BS"])] k =
        dictGet [("experience", PyVal.str "worked at X"),
          ("education", PyVal.list [PyVal.str "BS"])] k :=
  rewriteResumeData_nonlist_experience
    [("experience", PyVal.str "worked at X"), ("education", PyVal.list [PyVal.str "BS"])]
    [] Option.none (PyVal.str "worked at X")
    [("experience", PyVal.list []), ("education", PyVal.list [PyVal.str "BS"])]
    rfl rfl (fun _ h => PyVal.noConfusion h) rfl

set_option maxRecDepth 8000 in
/-- C2 evaluated at its own scenario: when the rewrite function raises for
exactly the middle bullet among three, the other two bullets are rewritten
but the failing bullet comes back as the entire constructed prompt, which
differs from its original text b2. -/
theorem rewrite_failing_bullet_becomes_prompt :
    rewriteResumeData c2Resume c2Job (some c2Query) =
      .ok [("experience", PyVal.list
        [PyVal.dict [("bullets", PyVal.list
          [PyVal.str "rewritten", PyVal.str c2FailPrompt, PyVal.str "rewritten"])]])] ∧
    c2FailPrompt ≠ "b2" := by
  constructor
  · rfl
  · decide

end AllDone
